import Mathlib

/-!
Verification of the djedi-cms REST API glue layer (djedi/rest/api.py).

The file embeds the three Django view classes shallowly:
  * APIView        : base class whose dispatch is wrapped in csrf_exempt
  * EmbedApi       : GET handler guarded by has_permission
  * NodesApi       : POST/GET handlers that parse a JSON object of
                     uri -> default entries, fetch each through cio.get,
                     and answer with a JSON object keyed by node.uri

External collaborators (the cio library, has_permission, render_embed,
JSONResponseMixin.render_to_json, Django decorators) are modelled as
parameters or as small definitions reflecting their documented behaviour.
Python dictionaries are modelled as association lists with insert-or-update
semantics (insertion order preserved, later values overwrite earlier ones).
-/

/-- A resolved content node returned by cio.get: carries a uri and content. -/
structure Node where
  uri : String
  content : String
deriving DecidableEq

/-- Body of an HTTP response: empty, rendered HTML, or a JSON object. -/
inductive RespBody where
  | empty : RespBody
  | html (markup : String) : RespBody
  | json (entries : List (String × String)) : RespBody
deriving DecidableEq

/-- Shallow model of django.http.HttpResponse. -/
structure HttpResponse where
  status : Nat
  body : RespBody
  headers : List (String × String)
deriving DecidableEq

/-- The JSON object carried by a response, empty when the body is not JSON. -/
def HttpResponse.jsonData (r : HttpResponse) : List (String × String) :=
  match r.body with
  | RespBody.json entries => entries
  | _ => []

/-- Observable calls made by a handler into the cio library. -/
inductive Event where
  | configure (cacheOnGet : Bool) : Event
  | cioGet (uri : String) (defaultVal : String) : Event
deriving DecidableEq

/-- Whether a trace event is a cio.get call. -/
def Event.isCioGet : Event → Bool
  | Event.cioGet _ _ => true
  | _ => false

/-- Whether an association list already holds an entry with the given key. -/
def hasKey : List (String × String) → String → Bool
  | [], _ => false
  | p :: ps, k => if p.1 = k then true else hasKey ps k

/-- Python dict insertion: update the value in place when the key exists,
otherwise append the pair at the end (insertion order preserved). -/
def dictInsert (d : List (String × String)) (kv : String × String) :
    List (String × String) :=
  if hasKey d kv.1 then d.map (fun p => if p.1 = kv.1 then kv else p)
  else d ++ [kv]

/-- The Python dict built from a sequence of key-value pairs. -/
def pyDict (ps : List (String × String)) : List (String × String) :=
  ps.foldl dictInsert []

/-- Lookup of the first entry with the given key. -/
def dictLookup (k : String) : List (String × String) → Option String
  | [] => none
  | p :: ps => if p.1 = k then some p.2 else dictLookup k ps

/-- The value of the LAST pair with the given key in a raw pair list. -/
def lastVal (k : String) : List (String × String) → Option String
  | [] => none
  | p :: ps =>
    match lastVal k ps with
    | some v => some v
    | none => if p.1 = k then some p.2 else none

/-- Cache-control header forced by Django's never_cache decorator. -/
def neverCacheHeader : String × String :=
  ("Cache-Control", "max-age=0, no-cache, no-store, must-revalidate, private")

/-- Django's never_cache decorator patches the handler's response with
no-cache cache-control headers. -/
def never_cache (r : HttpResponse) : HttpResponse :=
  { r with headers := neverCacheHeader :: r.headers }

/-- Response produced by Django's CSRF middleware on a failed check. -/
def csrfRejected : HttpResponse :=
  { status := 403, body := RespBody.empty, headers := [] }

/-- Django's CsrfViewMiddleware: a view whose dispatch is marked
csrf_exempt is run unconditionally; otherwise an invalid token is
answered with the 403 rejection. -/
def runThroughCsrfMiddleware (exemptFlag : Bool) (tokenOk : Bool)
    (response : HttpResponse) : HttpResponse :=
  if exemptFlag then response
  else if tokenOk then response
  else csrfRejected

/-- APIView.dispatch is decorated with csrf_exempt. -/
def APIView.dispatchCsrfExempt : Bool := true

/-- NodesApi subclasses APIView and inherits its csrf_exempt dispatch. -/
def NodesApi.dispatchCsrfExempt : Bool := APIView.dispatchCsrfExempt

/-- Modelled from the spec: render_embed lives in djedi/utils/templates.py,
which is not under src/. Per the spec, GET /embed with permission yields
HTTP 200 whose body is the rendered embed HTML; the markup itself is
abstracted as the parameter. -/
def render_embed (markup : String) : HttpResponse :=
  { status := 200, body := RespBody.html markup, headers := [] }

/-- Modelled from the spec: JSONResponseMixin.render_to_json lives in
djedi/admin/mixins.py, which is not under src/. Per the spec the /nodes
response is an HTTP 200 JSON object with a JSON content type. -/
def render_to_json (entries : List (String × String)) : HttpResponse :=
  { status := 200
    body := RespBody.json entries
    headers := [("Content-Type", "application/json")] }

/-- EmbedApi.get: render the embed when has_permission(request) holds,
otherwise answer 204 with an empty body (deliberately not a 403). -/
def EmbedApi.get (hasPerm : Bool) (markup : String) : HttpResponse :=
  if hasPerm then render_embed markup
  else { status := 204, body := RespBody.empty, headers := [] }

/-- Django View.dispatch routes a request to the handler named after the
lower-cased HTTP method and answers 405 when the class defines none.
EmbedApi defines only a get handler. -/
def EmbedApi.dispatch (method : String) (hasPerm : Bool) (markup : String) :
    HttpResponse :=
  if method = "get" then EmbedApi.get hasPerm markup
  else { status := 405, body := RespBody.empty, headers := [] }

/-- The cio.get collaborator: takes a uri and a default, returns a node or
raises (modelled as Except). -/
def CioGet : Type := String → String → Except String Node

/-- A cio.get oracle that never raises. -/
def pureCio (g : String → String → Node) : CioGet :=
  fun uri defaultVal => Except.ok (g uri defaultVal)

/-- The fetch loop of NodesApi: call cio.get for each (uri, default) entry
in order, collecting the nodes; a raised exception aborts the loop. -/
def cioGetAll (g : CioGet) : List (String × String) → Except String (List Node)
  | [] => Except.ok []
  | p :: ps =>
    match g p.1 p.2 with
    | Except.error e => Except.error e
    | Except.ok n =>
      match cioGetAll g ps with
      | Except.error e => Except.error e
      | Except.ok ns => Except.ok (n :: ns)

/-- The node list fetched by a never-raising oracle. -/
def fetchNodes (g : String → String → Node) (entries : List (String × String)) :
    List Node :=
  entries.map (fun p => g p.1 p.2)

/-- The dict comprehension building the response data, keyed by node.uri. -/
def nodeData (ns : List Node) : List (String × String) :=
  pyDict (ns.map (fun n => (n.uri, n.content)))

/-- Body of NodesApi.post before the never_cache patching: parse the JSON
body (the parse outcome is the argument), fetch every entry through
cio.get, and render the node.uri -> node.content dict as JSON. -/
def NodesApi.postBody (g : CioGet)
    (parsed : Except String (List (String × String))) :
    Except String HttpResponse :=
  match parsed with
  | Except.error e => Except.error e
  | Except.ok entries =>
    match cioGetAll g entries with
    | Except.error e => Except.error e
    | Except.ok ns => Except.ok (render_to_json (nodeData ns))

/-- NodesApi.post: the body wrapped by the never_cache method decorator. -/
def NodesApi.post (g : CioGet)
    (parsed : Except String (List (String × String))) :
    Except String HttpResponse :=
  (NodesApi.postBody g parsed).map never_cache

/-- NodesApi.get: identical fetch and response construction, with neither
the never_cache decoration nor the settings.configure call. -/
def NodesApi.get (g : CioGet)
    (parsed : Except String (List (String × String))) :
    Except String HttpResponse :=
  match parsed with
  | Except.error e => Except.error e
  | Except.ok entries =>
    match cioGetAll g entries with
    | Except.error e => Except.error e
    | Except.ok ns => Except.ok (render_to_json (nodeData ns))

/-- Trace of cio library calls made by NodesApi.post: the handler first
calls cio.conf.settings.configure disabling CACHE_ON_GET, then (when the
body parses) cio.get per entry in order; json.loads raises before the loop
on a malformed body. -/
def NodesApi.postTrace (parsed : Except String (List (String × String))) :
    List Event :=
  Event.configure false ::
    (match parsed with
     | Except.error _ => []
     | Except.ok entries => entries.map (fun p => Event.cioGet p.1 p.2))

/-- Trace of cio library calls made by NodesApi.get: no configure call. -/
def NodesApi.getTrace (parsed : Except String (List (String × String))) :
    List Event :=
  match parsed with
  | Except.error _ => []
  | Except.ok entries => entries.map (fun p => Event.cioGet p.1 p.2)

/-- The request URIs, i.e. the keys of the parsed request body. -/
def requestUris (entries : List (String × String)) : List String :=
  entries.map (fun p => p.1)

/-! ### Lemmas about the Python dict model -/

theorem dictInsert_length (d : List (String × String)) (kv : String × String) :
    (dictInsert d kv).length ≤ d.length + 1 := by
  unfold dictInsert
  split
  · rw [List.length_map]; exact Nat.le_succ _
  · rw [List.length_append]; exact Nat.le_refl _

theorem foldl_dictInsert_length (ps : List (String × String)) :
    ∀ acc : List (String × String),
      (ps.foldl dictInsert acc).length ≤ acc.length + ps.length := by
  induction ps with
  | nil => intro acc; simp
  | cons p ps ih =>
    intro acc
    have h1 := ih (dictInsert acc p)
    have h2 := dictInsert_length acc p
    simp only [List.foldl_cons, List.length_cons]
    omega

theorem pyDict_length (ps : List (String × String)) :
    (pyDict ps).length ≤ ps.length := by
  have h := foldl_dictInsert_length ps []
  simpa [pyDict] using h

theorem dictInsert_keys (d : List (String × String)) (kv : String × String)
    (k : String) (hk : k ∈ (dictInsert d kv).map (fun p => p.1)) :
    k = kv.1 ∨ k ∈ d.map (fun p => p.1) := by
  unfold dictInsert at hk
  split at hk
  · simp only [List.map_map] at hk
    obtain ⟨p, hp, hpk⟩ := List.mem_map.mp hk
    by_cases hc : p.1 = kv.1
    · left
      simp only [Function.comp, if_pos hc] at hpk
      exact hpk.symm
    · right
      simp only [Function.comp, if_neg hc] at hpk
      exact List.mem_map.mpr ⟨p, hp, hpk⟩
  · rw [List.map_append] at hk
    rcases List.mem_append.mp hk with h1 | h2
    · exact Or.inr h1
    · left
      have hk2 : k = kv.1 := by simpa using h2
      exact hk2

theorem foldl_dictInsert_keys (ps : List (String × String)) :
    ∀ acc : List (String × String), ∀ k : String,
      k ∈ (ps.foldl dictInsert acc).map (fun p => p.1) →
      k ∈ acc.map (fun p => p.1) ∨ k ∈ ps.map (fun p => p.1) := by
  induction ps with
  | nil => intro acc k h; exact Or.inl h
  | cons p ps ih =>
    intro acc k h
    rcases ih (dictInsert acc p) k h with h1 | h2
    · rcases dictInsert_keys acc p k h1 with he | hd
      · right; rw [he]; exact List.Mem.head _
      · exact Or.inl hd
    · exact Or.inr (List.Mem.tail _ h2)

theorem pyDict_keys (ps : List (String × String)) (k : String)
    (hk : k ∈ (pyDict ps).map (fun p => p.1)) : k ∈ ps.map (fun p => p.1) := by
  rcases foldl_dictInsert_keys ps [] k hk with h | h
  · cases h
  · exact h

theorem dictLookup_map_replace_ne (k : String) (kv : String × String)
    (hne : kv.1 ≠ k) (d : List (String × String)) :
    dictLookup k (d.map (fun p => if p.1 = kv.1 then kv else p)) =
      dictLookup k d := by
  induction d with
  | nil => rfl
  | cons p ps ih =>
    by_cases hc : p.1 = kv.1
    · simp only [List.map_cons, if_pos hc, dictLookup, if_neg hne,
        if_neg (fun h => hne (hc.symm.trans h))]
      exact ih
    · simp only [List.map_cons, if_neg hc, dictLookup]
      by_cases hk : p.1 = k
      · rw [if_pos hk, if_pos hk]
      · rw [if_neg hk, if_neg hk]; exact ih

theorem dictLookup_map_replace_eq (kv : String × String)
    (d : List (String × String)) (h : hasKey d kv.1 = true) :
    dictLookup kv.1 (d.map (fun p => if p.1 = kv.1 then kv else p)) =
      some kv.2 := by
  induction d with
  | nil => simp [hasKey] at h
  | cons p ps ih =>
    by_cases hc : p.1 = kv.1
    · simp [List.map_cons, if_pos hc, dictLookup]
    · have h' : hasKey ps kv.1 = true := by simpa [hasKey, hc] using h
      simp only [List.map_cons, if_neg hc, dictLookup, if_neg hc]
      exact ih h'

theorem dictLookup_none_of_hasKey_false (k : String)
    (d : List (String × String)) (h : hasKey d k = false) :
    dictLookup k d = none := by
  induction d with
  | nil => rfl
  | cons p ps ih =>
    by_cases hc : p.1 = k
    · simp [hasKey, hc] at h
    · have h' : hasKey ps k = false := by simpa [hasKey, hc] using h
      simp only [dictLookup, if_neg hc]
      exact ih h'

theorem dictLookup_append (k : String) (d e : List (String × String)) :
    dictLookup k (d ++ e) =
      match dictLookup k d with
      | some v => some v
      | none => dictLookup k e := by
  induction d with
  | nil => rfl
  | cons p ps ih =>
    by_cases hc : p.1 = k
    · simp only [List.cons_append, dictLookup, if_pos hc]
    · simp only [List.cons_append, dictLookup, if_neg hc]
      exact ih

theorem dictLookup_dictInsert (d : List (String × String))
    (kv : String × String) (k : String) :
    dictLookup k (dictInsert d kv) =
      if kv.1 = k then some kv.2 else dictLookup k d := by
  unfold dictInsert
  by_cases hk : hasKey d kv.1 = true
  · rw [if_pos hk]
    by_cases he : kv.1 = k
    · rw [if_pos he, ← he]
      exact dictLookup_map_replace_eq kv d hk
    · rw [if_neg he]
      exact dictLookup_map_replace_ne k kv he d
  · rw [if_neg hk]
    have h0 : hasKey d kv.1 = false := by
      revert hk; cases hasKey d kv.1 <;> simp
    rw [dictLookup_append]
    by_cases he : kv.1 = k
    · rw [if_pos he, dictLookup_none_of_hasKey_false k d (he ▸ h0)]
      simp [dictLookup, if_pos he]
    · rw [if_neg he]
      have hkv : dictLookup k [kv] = none := by simp [dictLookup, if_neg he]
      cases hdd : dictLookup k d with
      | some v => rfl
      | none => simpa using hkv

theorem dictLookup_foldl (k : String) (ps : List (String × String)) :
    ∀ acc : List (String × String),
      dictLookup k (ps.foldl dictInsert acc) =
        match lastVal k ps with
        | some v => some v
        | none => dictLookup k acc := by
  induction ps with
  | nil => intro acc; rfl
  | cons p ps ih =>
    intro acc
    rw [List.foldl_cons, ih (dictInsert acc p)]
    cases h : lastVal k ps with
    | some v => simp [lastVal, h]
    | none =>
      simp only [lastVal, h, dictLookup_dictInsert]
      by_cases hpk : p.1 = k
      · simp [hpk]
      · simp [hpk]

theorem pyDict_lookup (ps : List (String × String)) (k : String) :
    dictLookup k (pyDict ps) = lastVal k ps := by
  have h := dictLookup_foldl k ps []
  rw [pyDict, h]
  cases lastVal k ps <;> rfl

theorem hasKey_append (k : String) (d e : List (String × String)) :
    hasKey (d ++ e) k = (hasKey d k || hasKey e k) := by
  induction d with
  | nil => rfl
  | cons p ps ih =>
    by_cases hc : p.1 = k
    · simp [hasKey, hc]
    · simp only [List.cons_append, hasKey, if_neg hc]
      exact ih

theorem foldl_dictInsert_of_distinct (ps : List (String × String)) :
    ∀ acc : List (String × String),
      (∀ p ∈ ps, hasKey acc p.1 = false) →
      List.Pairwise (fun a b => a.1 ≠ b.1) ps →
      ps.foldl dictInsert acc = acc ++ ps := by
  induction ps with
  | nil => intro acc _ _; simp
  | cons p ps ih =>
    intro acc hacc hpw
    obtain ⟨hhead, htail⟩ := List.pairwise_cons.mp hpw
    have h0 : hasKey acc p.1 = false := hacc p (List.Mem.head _)
    have hins : dictInsert acc p = acc ++ [p] := by
      unfold dictInsert
      rw [if_neg (by simp [h0])]
    rw [List.foldl_cons, hins, ih (acc ++ [p]) ?hmem htail]
    · simp
    case hmem =>
      intro q hq
      rw [hasKey_append, hacc q (List.Mem.tail _ hq)]
      have hne : p.1 ≠ q.1 := hhead q hq
      simp [hasKey]
      exact hne

theorem pyDict_of_distinct (ps : List (String × String))
    (h : List.Pairwise (fun a b => a.1 ≠ b.1) ps) : pyDict ps = ps := by
  have hfold := foldl_dictInsert_of_distinct ps [] (fun p _ => rfl) h
  simpa [pyDict] using hfold

/-! ### Evaluation lemmas for the handlers -/

theorem cioGetAll_pureCio (g : String → String → Node) :
    ∀ entries : List (String × String),
      cioGetAll (pureCio g) entries = Except.ok (fetchNodes g entries) := by
  intro entries
  induction entries with
  | nil => rfl
  | cons p ps ih => simp [cioGetAll, pureCio, fetchNodes, ih]

theorem nodesApi_post_pure (g : String → String → Node)
    (entries : List (String × String)) :
    NodesApi.post (pureCio g) (Except.ok entries) =
      Except.ok (never_cache (render_to_json (nodeData (fetchNodes g entries)))) := by
  simp [NodesApi.post, NodesApi.postBody, cioGetAll_pureCio, Except.map]

theorem nodesApi_get_pure (g : String → String → Node)
    (entries : List (String × String)) :
    NodesApi.get (pureCio g) (Except.ok entries) =
      Except.ok (render_to_json (nodeData (fetchNodes g entries))) := by
  simp [NodesApi.get, cioGetAll_pureCio]

theorem cioGetAll_error_of_mem {g : CioGet} {entries : List (String × String)}
    {p : String × String} (hp : p ∈ entries) {msg : String}
    (h : g p.1 p.2 = Except.error msg) :
    ∃ e, cioGetAll g entries = Except.error e := by
  induction entries with
  | nil => cases hp
  | cons q qs ih =>
    cases hq : g q.1 q.2 with
    | error e2 => exact ⟨e2, by simp [cioGetAll, hq]⟩
    | ok n =>
      cases hp with
      | head => rw [hq] at h; cases h
      | tail _ hmem =>
        obtain ⟨e, he⟩ := ih hmem
        exact ⟨e, by simp [cioGetAll, hq, he]⟩

theorem map_uri_pairs (g : String → String → Node) :
    ∀ entries : List (String × String),
      (∀ p ∈ entries, (g p.1 p.2).uri = p.1) →
      (fetchNodes g entries).map (fun n => (n.uri, n.content)) =
        entries.map (fun p => (p.1, (g p.1 p.2).content)) := by
  intro entries
  induction entries with
  | nil => intro _; rfl
  | cons p ps ih =>
    intro h
    have hp := h p (List.Mem.head _)
    have hps := ih (fun q hq => h q (List.Mem.tail _ hq))
    show ((g p.1 p.2).uri, (g p.1 p.2).content) :: _ =
      (p.1, (g p.1 p.2).content) :: _
    rw [hp]
    exact congrArg _ hps

/-- A cio oracle that resolves a uri to a node with the very same uri. -/
def gIdent : String → String → Node :=
  fun uri defaultVal => { uri := uri, content := defaultVal }

/-- A cio oracle that always raises. -/
def gBoom : CioGet := fun _ _ => Except.error "boom"

/-- A cio oracle that resolves every uri to one same expanded node uri. -/
def gSame : String → String → Node :=
  fun _ defaultVal => { uri := "same/uri", content := defaultVal }

/-- A cio oracle that expands the requested uri, as the cio library does
when it fully qualifies a uri with scheme, namespace and extension. -/
def gExpand : String → String → Node :=
  fun _ defaultVal => { uri := "i18n://en@a/uri.txt", content := defaultVal }

/-! ### Claims -/

/-- Claim C3: for every GET /embed request without permission the handler
answers HTTP 204 with an empty body, not a 403. -/
theorem embed_get_without_permission_is_204 (markup : String) :
    (EmbedApi.get false markup).status = 204 ∧
    (EmbedApi.get false markup).body = RespBody.empty ∧
    (EmbedApi.get false markup).status ≠ 403 := by
  refine ⟨rfl, rfl, ?_⟩
  intro h
  simp [EmbedApi.get] at h

/-- Claim C4: for every GET /embed request with permission the handler
returns the result of render_embed, an HTTP 200 response carrying the
rendered embed HTML. -/
theorem embed_get_with_permission_renders_embed (markup : String) :
    EmbedApi.get true markup = render_embed markup ∧
    (EmbedApi.get true markup).status = 200 ∧
    (EmbedApi.get true markup).body = RespBody.html markup :=
  ⟨rfl, rfl, rfl⟩

/-- Claim C8 counterexample: the /embed endpoint does not accept POST.
EmbedApi defines only a get handler, so Django View.dispatch answers a
POST with 405 Method Not Allowed: neither the rendered embed (200) nor
the empty 204 the claim promises. -/
theorem embed_post_is_method_not_allowed :
    (EmbedApi.dispatch "post" true "embed-markup").status = 405 ∧
    EmbedApi.dispatch "post" true "embed-markup" ≠ render_embed "embed-markup" ∧
    (EmbedApi.dispatch "post" false "embed-markup").status ≠ 204 := by
  refine ⟨rfl, by decide, by decide⟩

/-- Claim C8 amended: /embed handles GET only — returning the rendered
embed HTML with permission and an empty 204 without — while a POST is
answered 405 because EmbedApi defines no post handler. -/
theorem embed_dispatch_behaviour (perm : Bool) (markup : String) :
    EmbedApi.dispatch "get" true markup = render_embed markup ∧
    (EmbedApi.dispatch "get" false markup).status = 204 ∧
    (EmbedApi.dispatch "get" false markup).body = RespBody.empty ∧
    (EmbedApi.dispatch "post" perm markup).status = 405 :=
  ⟨rfl, rfl, rfl, rfl⟩

/-- Claim C6: APIView.dispatch is wrapped in csrf_exempt, and NodesApi
inherits it, so the CSRF middleware passes every request through to the
handler, even one with an invalid token. -/
theorem apiview_dispatch_is_csrf_exempt (tokenOk : Bool)
    (response : HttpResponse) :
    APIView.dispatchCsrfExempt = true ∧
    runThroughCsrfMiddleware APIView.dispatchCsrfExempt tokenOk response =
      response ∧
    runThroughCsrfMiddleware NodesApi.dispatchCsrfExempt false response =
      response :=
  ⟨rfl, rfl, rfl⟩

/-- Claim C5: every response of the never_cache-decorated POST /nodes
handler carries the no-cache cache-control header. -/
theorem nodes_post_response_never_cached (g : CioGet)
    (parsed : Except String (List (String × String))) (r : HttpResponse)
    (h : NodesApi.post g parsed = Except.ok r) :
    neverCacheHeader ∈ r.headers := by
  have h' : (NodesApi.postBody g parsed).map never_cache = Except.ok r := h
  cases hb : NodesApi.postBody g parsed with
  | error e => rw [hb] at h'; simp [Except.map] at h'
  | ok r0 =>
    rw [hb] at h'
    simp only [Except.map, Except.ok.injEq] at h'
    rw [← h']
    exact List.mem_cons_self _ _

theorem nodes_post_response_never_cached_witness :
    neverCacheHeader ∈
      (never_cache (render_to_json
        (nodeData (fetchNodes gIdent [("a/uri", "default-a")])))).headers :=
  nodes_post_response_never_cached (pureCio gIdent)
    (Except.ok [("a/uri", "default-a")]) _ rfl

/-- Claim C2: the POST /nodes handler calls cio.conf.settings.configure
with CACHE_ON_GET set to False before any cio.get call: in its trace the
configure event is first and every cio.get event is strictly after it. -/
theorem nodes_post_configures_cache_before_gets
    (parsed : Except String (List (String × String))) :
    (NodesApi.postTrace parsed).head? = some (Event.configure false) ∧
    ∀ i, ∀ hi : i < (NodesApi.postTrace parsed).length,
      Event.isCioGet ((NodesApi.postTrace parsed).get ⟨i, hi⟩) = true →
      ∃ j, ∃ hj : j < (NodesApi.postTrace parsed).length,
        j < i ∧ (NodesApi.postTrace parsed).get ⟨j, hj⟩ =
          Event.configure false := by
  refine ⟨rfl, ?_⟩
  intro i hi hget
  have hpos : 0 < (NodesApi.postTrace parsed).length := Nat.succ_pos _
  refine ⟨0, hpos, ?_, rfl⟩
  cases i with
  | zero => exact Bool.noConfusion hget
  | succ n => exact Nat.succ_pos n

/-- Claim C7: a /nodes request whose body fails to parse, and one in
which some cio.get lookup raises, propagate the exception out of both
handlers uncaught: the handler yields the error and no JSON response. -/
theorem nodes_errors_propagate_uncaught :
    (∀ g : CioGet, ∀ e : String,
       NodesApi.post g (Except.error e) = Except.error e ∧
       NodesApi.get g (Except.error e) = Except.error e) ∧
    (∀ g : CioGet, ∀ entries : List (String × String),
       (∃ p ∈ entries, ∃ msg, g p.1 p.2 = Except.error msg) →
       (∃ e, NodesApi.post g (Except.ok entries) = Except.error e) ∧
       (∃ e, NodesApi.get g (Except.ok entries) = Except.error e)) := by
  constructor
  · intro g e; exact ⟨rfl, rfl⟩
  · intro g entries h
    obtain ⟨p, hp, msg, hmsg⟩ := h
    obtain ⟨e, he⟩ := cioGetAll_error_of_mem hp hmsg
    refine ⟨⟨e, ?_⟩, ⟨e, ?_⟩⟩
    · simp [NodesApi.post, NodesApi.postBody, he, Except.map]
    · simp [NodesApi.get, he]

theorem nodes_errors_propagate_uncaught_witness :
    (∃ e, NodesApi.post gBoom (Except.ok [("a/uri", "default-a")]) =
       Except.error e) ∧
    (∃ e, NodesApi.get gBoom (Except.ok [("a/uri", "default-a")]) =
       Except.error e) :=
  nodes_errors_propagate_uncaught.2 gBoom [("a/uri", "default-a")]
    ⟨("a/uri", "default-a"), List.Mem.head _, "boom", rfl⟩

/-- Claim C9: the GET /nodes handler computes exactly the post handler's
uri-to-content mapping — post equals get followed by the never_cache
patching, the traces differ only in the leading configure event, and on a
common success status and body agree while post adds the no-cache
header. -/
theorem nodes_get_matches_post (g : CioGet)
    (parsed : Except String (List (String × String))) :
    NodesApi.post g parsed = (NodesApi.get g parsed).map never_cache ∧
    NodesApi.postTrace parsed =
      Event.configure false :: NodesApi.getTrace parsed ∧
    (∀ r r2, NodesApi.get g parsed = Except.ok r →
       NodesApi.post g parsed = Except.ok r2 →
       r2.status = r.status ∧ r2.body = r.body ∧
       r2.headers = neverCacheHeader :: r.headers) := by
  refine ⟨rfl, rfl, ?_⟩
  intro r r2 hg hp
  have hmap : (NodesApi.get g parsed).map never_cache = Except.ok r2 := hp
  rw [hg] at hmap
  simp only [Except.map, Except.ok.injEq] at hmap
  rw [← hmap]
  exact ⟨rfl, rfl, rfl⟩

theorem nodes_get_matches_post_witness :
    (never_cache (render_to_json
        (nodeData (fetchNodes gIdent [("a/uri", "default-a")])))).status =
      (render_to_json
        (nodeData (fetchNodes gIdent [("a/uri", "default-a")]))).status ∧
    (never_cache (render_to_json
        (nodeData (fetchNodes gIdent [("a/uri", "default-a")])))).body =
      (render_to_json
        (nodeData (fetchNodes gIdent [("a/uri", "default-a")]))).body ∧
    (never_cache (render_to_json
        (nodeData (fetchNodes gIdent [("a/uri", "default-a")])))).headers =
      neverCacheHeader :: (render_to_json
        (nodeData (fetchNodes gIdent [("a/uri", "default-a")]))).headers :=
  (nodes_get_matches_post (pureCio gIdent)
      (Except.ok [("a/uri", "default-a")])).2.2
    (render_to_json (nodeData (fetchNodes gIdent [("a/uri", "default-a")])))
    (never_cache (render_to_json
      (nodeData (fetchNodes gIdent [("a/uri", "default-a")]))))
    rfl rfl

theorem nodes_post_configures_cache_before_gets_witness :
    ∃ j, ∃ hj : j <
        (NodesApi.postTrace (Except.ok [("a/uri", "default-a")])).length,
      j < 1 ∧ (NodesApi.postTrace (Except.ok [("a/uri", "default-a")])).get
        ⟨j, hj⟩ = Event.configure false :=
  (nodes_post_configures_cache_before_gets
    (Except.ok [("a/uri", "default-a")])).2 1 (by decide) rfl

/-- Claim C10: the /nodes response object is keyed by the .uri attribute
of each node returned by cio.get — every response key is some resolved
node's uri, a key resolved by several entries holds the LAST entry's
content, and the response has at most as many entries as the request. -/
theorem nodes_response_keyed_by_node_uri (g : String → String → Node)
    (entries : List (String × String)) (r : HttpResponse)
    (h : NodesApi.post (pureCio g) (Except.ok entries) = Except.ok r ∨
         NodesApi.get (pureCio g) (Except.ok entries) = Except.ok r) :
    (∀ k ∈ r.jsonData.map (fun p => p.1),
       k ∈ (fetchNodes g entries).map Node.uri) ∧
    (∀ k, dictLookup k r.jsonData =
       lastVal k ((fetchNodes g entries).map (fun n => (n.uri, n.content)))) ∧
    r.jsonData.length ≤ entries.length := by
  have hdata : r.jsonData = nodeData (fetchNodes g entries) := by
    rcases h with h | h
    · rw [nodesApi_post_pure] at h
      injection h with h
      rw [← h]
      rfl
    · rw [nodesApi_get_pure] at h
      injection h with h
      rw [← h]
      rfl
  rw [hdata]
  refine ⟨?_, ?_, ?_⟩
  · intro k hk
    have hmem : k ∈ ((fetchNodes g entries).map
        (fun n => (n.uri, n.content))).map (fun p => p.1) :=
      pyDict_keys _ k hk
    rw [List.map_map] at hmem
    exact hmem
  · intro k
    exact pyDict_lookup _ k
  · have h1 := pyDict_length
      ((fetchNodes g entries).map (fun n => (n.uri, n.content)))
    have h2 : ((fetchNodes g entries).map
        (fun n => (n.uri, n.content))).length = entries.length := by
      simp [fetchNodes]
    calc (nodeData (fetchNodes g entries)).length
        ≤ ((fetchNodes g entries).map
            (fun n => (n.uri, n.content))).length := h1
      _ = entries.length := h2

theorem nodes_response_keyed_by_node_uri_witness :
    ((∀ k ∈ (never_cache (render_to_json (nodeData (fetchNodes gSame
        [("a", "1"), ("b", "2")])))).jsonData.map (fun p => p.1),
        k ∈ (fetchNodes gSame [("a", "1"), ("b", "2")]).map Node.uri) ∧
      (∀ k, dictLookup k (never_cache (render_to_json (nodeData
          (fetchNodes gSame [("a", "1"), ("b", "2")])))).jsonData =
        lastVal k ((fetchNodes gSame [("a", "1"), ("b", "2")]).map
          (fun n => (n.uri, n.content)))) ∧
      (never_cache (render_to_json (nodeData (fetchNodes gSame
        [("a", "1"), ("b", "2")])))).jsonData.length ≤
        [("a", "1"), ("b", "2")].length) ∧
    dictLookup "same/uri"
      (nodeData (fetchNodes gSame [("a", "1"), ("b", "2")])) = some "2" ∧
    (nodeData (fetchNodes gSame [("a", "1"), ("b", "2")])).length = 1 :=
  ⟨nodes_response_keyed_by_node_uri gSame [("a", "1"), ("b", "2")] _
      (Or.inl rfl),
   by decide, by decide⟩

/-- Claim C1 counterexample: the POST /nodes response is NOT keyed by the
request URIs — with an oracle that expands the uri (as cio does when it
fully qualifies one), the body for request key a/uri comes back under the
expanded node uri instead. -/
theorem nodes_post_keys_not_request_uris :
    ¬ (∀ (g : String → String → Node) (entries : List (String × String))
         (r : HttpResponse),
        NodesApi.post (pureCio g) (Except.ok entries) = Except.ok r →
        r.jsonData.map (fun p => p.1) = requestUris entries) := by
  intro hclaim
  have h := hclaim gExpand [("a/uri", "default-a")]
    (never_cache (render_to_json
      (nodeData (fetchNodes gExpand [("a/uri", "default-a")])))) rfl
  exact absurd h (by decide)

/-- Claim C1 amended: POST /nodes calls cio.get(uri, default) for each
entry in order and answers HTTP 200 JSON with no-cache headers, but the
body maps each resolved node's .uri to its content; the response keys
equal the request URIs exactly when every resolved node keeps the
requested uri (and the request keys, being a JSON object's, are
distinct). -/
theorem nodes_post_maps_node_uris (g : String → String → Node)
    (entries : List (String × String)) :
    NodesApi.post (pureCio g) (Except.ok entries) =
      Except.ok (never_cache (render_to_json
        (nodeData (fetchNodes g entries)))) ∧
    NodesApi.postTrace (Except.ok entries) =
      Event.configure false :: entries.map (fun p => Event.cioGet p.1 p.2) ∧
    (∀ r, NodesApi.post (pureCio g) (Except.ok entries) = Except.ok r →
       r.status = 200 ∧ ("Content-Type", "application/json") ∈ r.headers ∧
       r.jsonData = nodeData (fetchNodes g entries)) ∧
    ((∀ p ∈ entries, (g p.1 p.2).uri = p.1) →
      List.Pairwise (fun a b => a.1 ≠ b.1) entries →
      (nodeData (fetchNodes g entries)).map (fun p => p.1) =
        requestUris entries) := by
  refine ⟨nodesApi_post_pure g entries, rfl, ?_, ?_⟩
  · intro r h
    rw [nodesApi_post_pure] at h
    injection h with h
    rw [← h]
    exact ⟨rfl, List.Mem.tail _ (List.Mem.head _), rfl⟩
  · intro huri hpw
    have hpairs := map_uri_pairs g entries huri
    have hpw2 : List.Pairwise (fun a b => a.1 ≠ b.1)
        (entries.map (fun p => (p.1, (g p.1 p.2).content))) :=
      List.pairwise_map.mpr hpw
    show (pyDict ((fetchNodes g entries).map
        (fun n => (n.uri, n.content)))).map (fun p => p.1) =
      requestUris entries
    rw [hpairs, pyDict_of_distinct _ hpw2, List.map_map]
    rfl

theorem nodes_post_maps_node_uris_witness :
    ((never_cache (render_to_json
        (nodeData (fetchNodes gIdent [("a/uri", "default-a")])))).status =
          200 ∧
      ("Content-Type", "application/json") ∈
        (never_cache (render_to_json
          (nodeData (fetchNodes gIdent [("a/uri", "default-a")])))).headers ∧
      (never_cache (render_to_json
        (nodeData (fetchNodes gIdent [("a/uri", "default-a")])))).jsonData =
        nodeData (fetchNodes gIdent [("a/uri", "default-a")])) ∧
    (nodeData (fetchNodes gIdent [("a/uri", "default-a")])).map
      (fun p => p.1) = requestUris [("a/uri", "default-a")] :=
  ⟨(nodes_post_maps_node_uris gIdent [("a/uri", "default-a")]).2.2.1 _ rfl,
   (nodes_post_maps_node_uris gIdent [("a/uri", "default-a")]).2.2.2
     (fun p _ => rfl) (by simp)⟩
